import Mathlib

/-!
Verification of the ground-truth synthesis pipeline in
`dataset/cbn/cbn_tt.py` (text-detection training data preparation).

The Python functions are shallowly embedded as Lean definitions:

* machine floats on pixel counts, scales and offsets are modelled as `ℚ`,
  with Python `int(...)` truncation made explicit (`truncQ`);
* calls into external libraries (`pyclipper`, the `Polygon` area routine,
  `np.linalg.norm`, `cv2.distanceTransform`) are taken as explicit function
  parameters of the embedded code, so every theorem quantifies over the
  library behaviour;
* the ambient random state (`random.random`, `random.randint`) becomes an
  explicit input: a rational draw plus integer draws that the embedding
  clamps into the inclusive range `random.randint` guarantees;
* code that can raise returns `Option`/`Except`.

The file is organised as: all definitions first, then the theorems.
-/

/-- Python `int(q)` on a rational: truncation toward zero (the source uses
`int(h * scale + 0.5)` and `int(area * ... + 0.5)`). -/
def truncQ (q : ℚ) : ℤ := if 0 ≤ q then ⌊q⌋ else ⌈q⌉

/-! ### scale_aligned (cbn_tt.py lines 95-104) and scale_aligned_short (125-135)

`scale_aligned` computes `h = int(h * scale + 0.5)` and then
`if h % 32 != 0: h = h + (32 - h % 32)` (same for `w`), then resizes the image
to `(w, h)`; the embedding returns the computed target dimensions `(h, w)`.
Python `%` on integers is floor-mod, which for the positive modulus 32
agrees with `Int.emod` (`%`). -/

/-- The `if h % 32 != 0: h = h + (32 - h % 32)` adjustment from
`scale_aligned` / `scale_aligned_short`. -/
def align32 (n : ℤ) : ℤ := if n % 32 = 0 then n else n + (32 - n % 32)

/-- `scale_aligned(img, scale)` (lines 95-104): returns the output
dimensions `(h, w)` of the resized image. -/
def scale_aligned (h w : ℕ) (scale : ℚ) : ℤ × ℤ :=
  (align32 (truncQ ((h : ℚ) * scale + 1/2)), align32 (truncQ ((w : ℚ) * scale + 1/2)))

/-- `scale_aligned_short(img, short_size)` (lines 125-135): computes
`scale = short_size * 1.0 / min(h, w)` and then performs exactly the body of
`scale_aligned` (the source duplicates those four lines verbatim). -/
def scale_aligned_short (h w short : ℕ) : ℤ × ℤ :=
  scale_aligned h w ((short : ℚ) / ((min h w : ℕ) : ℚ))

/-- Spec-side predicate: `n` is `d` rounded up to the next multiple of 32
(the least multiple of 32 that is `≥ d`). -/
def roundUp32 (d n : ℤ) : Prop := 32 ∣ n ∧ d ≤ n ∧ n < d + 32

/-! ### update_word_mask (cbn_tt.py lines 218-234)

```
def update_word_mask(instance, instance_before_crop, word_mask):
    labels = np.unique(instance)
    for label in labels:
        if label == 0: continue
        ind = instance == label
        if np.sum(ind) == 0:
            word_mask[label] = 0
            continue
        ind_before_crop = instance_before_crop == label
        if float(np.sum(ind)) / np.sum(ind_before_crop) > 0.9: continue
        word_mask[label] = 0
    return word_mask
```

Instance maps are modelled as flattened lists of pixel labels (only the
multiset of labels matters to the function); the word mask is a total slot
function `ℕ → ℕ`.  `np.unique` yields each distinct label of the post-crop
map once; the loop body reads only pixel counts and writes only slot
`label`, so the iteration order is immaterial and the embedding iterates
over `instance.dedup`.  Note `float(np.sum(ind)) / np.sum(ind_before_crop)`
with a zero denominator is NumPy float division, yielding `inf` (not an
exception), and `inf > 0.9` holds, so a label with zero pre-crop pixels is
skipped; the embedding reproduces this with an explicit zero-denominator
test. -/

/-- `np.sum(pixels == label)`: number of pixels carrying `label`. -/
def countPix (pixels : List ℕ) (label : ℕ) : ℕ := (pixels.filter (· = label)).length

/-- One iteration of the `update_word_mask` loop for a given `label`. -/
def updateStep (post pre : List ℕ) (label : ℕ) (mask : ℕ → ℕ) : ℕ → ℕ :=
  if label = 0 then mask
  else if countPix post label = 0 then fun n => if n = label then 0 else mask n
  else if countPix pre label = 0 then mask
  else if (countPix post label : ℚ) / (countPix pre label : ℚ) > 9/10 then mask
  else fun n => if n = label then 0 else mask n

/-- `update_word_mask(instance, instance_before_crop, word_mask)`
(lines 218-234). -/
def update_word_mask (post pre : List ℕ) (mask : ℕ → ℕ) : ℕ → ℕ :=
  post.dedup.foldl (fun m label => updateStep post pre label m) mask

/-- Whether the loop body clears slot `label` (the `word_mask[label] = 0`
branches of the source). -/
def clearsSlot (post pre : List ℕ) (label : ℕ) : Prop :=
  label ≠ 0 ∧ (countPix post label = 0 ∨
    (countPix pre label ≠ 0 ∧
      ¬ ((countPix post label : ℚ) / (countPix pre label : ℚ) > 9/10)))

instance (post pre : List ℕ) (label : ℕ) : Decidable (clearsSlot post pre label) := by
  unfold clearsSlot; infer_instance

/-! ### perimeter (cbn_tt.py lines 237-245) and shrink (lines 248-277)

```
def dist(a, b):
    return np.linalg.norm((a - b), ord=2, axis=0)

def perimeter(bbox):
    peri = 0.0
    for i in range(bbox.shape[0]):
        peri += dist(bbox[i], bbox[(i + 1) % bbox.shape[0]])
    return peri

def shrink(bboxes, rate, max_shr=20):
    rate = rate * rate
    shrinked_bboxes = []
    for bbox in bboxes:
        area = plg.Polygon(bbox).area()
        peri = perimeter(bbox)
        try:
            pco = pyclipper.PyclipperOffset()
            pco.AddPath(bbox, pyclipper.JT_ROUND, pyclipper.ET_CLOSEDPOLYGON)
            offset = min(int(area * (1 - rate) / (peri + 0.001) + 0.5), max_shr)
            shrinked_bbox = pco.Execute(-offset)
            if len(shrinked_bbox) == 0:
                shrinked_bboxes.append(bbox)
                continue
            shrinked_bbox = np.array(shrinked_bbox[0])
            if shrinked_bbox.shape[0] <= 2:
                shrinked_bboxes.append(bbox)
                continue
            shrinked_bboxes.append(shrinked_bbox)
        except Exception:
            print(type(shrinked_bbox), shrinked_bbox)
            print('area:', area, 'peri:', peri)
            shrinked_bboxes.append(bbox)
    return shrinked_bboxes
```

The external geometry libraries become parameters: `area` for
`plg.Polygon(...).area()`, `dist` for the Euclidean norm, and `clipper` for
the `AddPath`/`Execute` pair of `pyclipper.PyclipperOffset` — one fallible
call receiving the path, the join type, the end type and the offset delta,
returning the list of result rings (`none` models the library raising).

Two Python scoping details are modelled faithfully.  First, an exception in
`AddPath`/`Execute` is raised before `shrinked_bbox` is assigned in that
iteration, while `except Exception:` runs
`print(type(shrinked_bbox), shrinked_bbox)`: if no earlier iteration's
`Execute` succeeded, `shrinked_bbox` is an unbound local and the `print`
itself raises `UnboundLocalError`, which escapes `shrink` (the function-local
variable survives across loop iterations, so after any successful `Execute`
the handler works and appends the unshrunk `bbox`).  The `bound` flag of
`shrinkLoop` tracks whether `shrinked_bbox` has been assigned.  Second,
`pco.Execute` assigns `shrinked_bbox` even when the result is the empty
list, so `bound` becomes true on every successful call. -/

/-- A 2-D point (the caller rasterizes from `int32` coordinates). -/
abbrev Pt := ℤ × ℤ

/-- A polygon: ordered list of points. -/
abbrev Contour := List Pt

/-- `pyclipper` join types (source uses `JT_ROUND`). -/
inductive JoinType where
  | jtSquare : JoinType
  | jtRound : JoinType
  | jtMiter : JoinType
deriving DecidableEq

/-- `pyclipper` end types (source uses `ET_CLOSEDPOLYGON`). -/
inductive EndType where
  | etClosedPolygon : EndType
  | etClosedLine : EndType
  | etOpenButt : EndType
deriving DecidableEq

/-- One `PyclipperOffset` use: `AddPath(path, join, endTy)` followed by
`Execute(delta)`. -/
structure ClipperCall where
  path : Contour
  join : JoinType
  endTy : EndType
  delta : ℤ
deriving DecidableEq

/-- The external `pyclipper` offsetting routine: returns the offset rings,
or `none` when the library raises. -/
abbrev Clipper := ClipperCall → Option (List Contour)

/-- `perimeter(bbox)` (lines 241-245): indexed loop
`peri += dist(bbox[i], bbox[(i + 1) % n])`. -/
def perimeter (dist : Pt → Pt → ℚ) (bbox : Contour) : ℚ :=
  (List.range bbox.length).foldl
    (fun peri i => peri + dist (bbox.getD i (0, 0)) (bbox.getD ((i + 1) % bbox.length) (0, 0)))
    0

/-- Spec-side perimeter: the sum of Euclidean edge lengths over the closed
polygon, the wrap-around edge included (each vertex paired with its cyclic
successor). -/
def perimeterSpec (dist : Pt → Pt → ℚ) (bbox : Contour) : ℚ :=
  ((bbox.zip (bbox.rotate 1)).map (fun e => dist e.1 e.2)).sum

/-- The offset distance of line 258:
`min(int(area * (1 - rate) / (peri + 0.001) + 0.5), max_shr)`, where `rate`
has already been squared by line 249. -/
def shrinkOffset (area : Contour → ℚ) (dist : Pt → Pt → ℚ) (rateSq : ℚ) (maxShr : ℤ)
    (bbox : Contour) : ℤ :=
  min (truncQ (area bbox * (1 - rateSq) / (perimeter dist bbox + 1/1000) + 1/2)) maxShr

/-- The `PyclipperOffset` invocation `shrink` performs for one polygon
(lines 256-261): round joins, closed-polygon mode, negated offset. -/
def shrinkCall (area : Contour → ℚ) (dist : Pt → Pt → ℚ) (rateSq : ℚ) (maxShr : ℤ)
    (bbox : Contour) : ClipperCall :=
  ⟨bbox, JoinType.jtRound, EndType.etClosedPolygon, -(shrinkOffset area dist rateSq maxShr bbox)⟩

/-- The `for bbox in bboxes` loop of `shrink` (lines 251-275).  `bound`
records whether `shrinked_bbox` has been assigned by an earlier successful
`Execute`; `.error ()` is the `UnboundLocalError` escaping from the
`except` handler's `print`. -/
def shrinkLoop (clipper : Clipper) (area : Contour → ℚ) (dist : Pt → Pt → ℚ)
    (rateSq : ℚ) (maxShr : ℤ) : List Contour → Bool → Except Unit (List Contour)
  | [], _ => Except.ok []
  | bbox :: rest, bound =>
    match clipper (shrinkCall area dist rateSq maxShr bbox) with
    | none =>
      if bound then (shrinkLoop clipper area dist rateSq maxShr rest true).map (bbox :: ·)
      else Except.error ()
    | some rings =>
      if rings.length = 0 then
        (shrinkLoop clipper area dist rateSq maxShr rest true).map (bbox :: ·)
      else if rings.headI.length ≤ 2 then
        (shrinkLoop clipper area dist rateSq maxShr rest true).map (bbox :: ·)
      else (shrinkLoop clipper area dist rateSq maxShr rest true).map (rings.headI :: ·)

/-- `shrink(bboxes, rate, max_shr=20)` (lines 248-277); the source's default
`max_shr` is 20.  Line 249 squares the rate once before the loop. -/
def shrink (clipper : Clipper) (area : Contour → ℚ) (dist : Pt → Pt → ℚ)
    (bboxes : List Contour) (rate : ℚ) (maxShr : ℤ) : Except Unit (List Contour) :=
  shrinkLoop clipper area dist (rate * rate) maxShr bboxes false

/-! ### random_crop_padding (cbn_tt.py lines 167-215)

```
def random_crop_padding(imgs, target_size):
    h, w = imgs[0].shape[0:2]
    t_w, t_h = target_size
    p_w, p_h = target_size
    if w == t_w and h == t_h:
        return imgs
    t_h = t_h if t_h < h else h
    t_w = t_w if t_w < w else w
    if random.random() > 3.0 / 8.0 and np.max(imgs[1]) > 0:
        tl = np.min(np.where(imgs[1] > 0), axis=1) - (t_h, t_w)
        tl[tl < 0] = 0
        br = np.max(np.where(imgs[1] > 0), axis=1) - (t_h, t_w)
        br[br < 0] = 0
        br[0] = min(br[0], h - t_h)
        br[1] = min(br[1], w - t_w)
        i = random.randint(tl[0], br[0]) if tl[0] < br[0] else 0
        j = random.randint(tl[1], br[1]) if tl[1] < br[1] else 0
    else:
        i = random.randint(0, h - t_h) if h - t_h > 0 else 0
        j = random.randint(0, w - t_w) if w - t_w > 0 else 0
    n_imgs = []
    for idx in range(len(imgs)):
        img = imgs[idx][i:i + t_h, j:j + t_w, ...]
        img_p = cv2.copyMakeBorder(img, 0, p_h - t_h, 0, p_w - t_w,
                                   borderType=cv2.BORDER_CONSTANT, value=0)
        n_imgs.append(img_p)
    return n_imgs
```

A raster is modelled by its two spatial dimensions and a total pixel
function (the source's 2-channel/3-channel branches crop and pad the
spatial axes identically, with an all-zero constant border in both, so the
channel axis is dropped).  The randomness is explicit: `rdraw` is the
`random.random()` draw and `rA`/`rB` stand for the `random.randint` draws
for the row/column origin, clamped into the inclusive range that
`random.randint(lo, hi)` guarantees (each `randint` call site is guarded by
`lo < hi` or `hi > 0`, so the range is valid whenever consulted).  Python
evaluates the `and` of line 177 left-to-right, so `imgs[1]` is only read —
and can only raise `IndexError`, modelled as `none` — when the draw
exceeds 3/8.  `np.max(imgs[1]) > 0` is equivalent to "some pixel is
positive", embedded as `hasFg`. -/

/-- A raster layer: spatial dimensions plus a total pixel function. -/
structure Raster where
  h : ℕ
  w : ℕ
  data : ℕ → ℕ → ℚ

/-- `random.randint(lo, hi)`: the draw `v` made explicit, clamped into the
inclusive range `[lo, hi]` that the library guarantees. -/
def randint (v lo hi : ℤ) : ℤ := max lo (min v hi)

/-- Positions `(row, col)` of the strictly positive pixels of a raster
(the pairs `np.where(imgs[1] > 0)` enumerates). -/
def fgPos (r : Raster) : List (ℕ × ℕ) :=
  (List.range r.h).flatMap fun y =>
    ((List.range r.w).filter fun x => decide (0 < r.data y x)).map fun x => (y, x)

/-- `np.max(imgs[1]) > 0`: some pixel of the raster is positive. -/
def hasFg (r : Raster) : Bool := !(fgPos r).isEmpty

/-- `np.min(np.where(imgs[1] > 0), axis=1)[0]` — smallest foreground row
(only consulted under the `np.max(imgs[1]) > 0` guard). -/
def fgMinRow (r : Raster) : ℕ := (((fgPos r).map Prod.fst).min?).getD 0

/-- Largest foreground row. -/
def fgMaxRow (r : Raster) : ℕ := (((fgPos r).map Prod.fst).max?).getD 0

/-- Smallest foreground column. -/
def fgMinCol (r : Raster) : ℕ := (((fgPos r).map Prod.snd).min?).getD 0

/-- Largest foreground column. -/
def fgMaxCol (r : Raster) : ℕ := (((fgPos r).map Prod.snd).max?).getD 0

/-- `tl = np.min(np.where(...)) - t` clamped at 0 along one axis
(lines 179-180). -/
def biasedLo (fgmin t : ℕ) : ℤ := max ((fgmin : ℤ) - t) 0

/-- `br = np.max(np.where(...)) - t` clamped at 0 and at `dim - t` along one
axis (lines 181-184). -/
def biasedHi (fgmax dim t : ℕ) : ℤ := min (max ((fgmax : ℤ) - t) 0) ((dim : ℤ) - t)

/-- The text-region-biased origin choice along one axis (lines 179-187):
`randint(tl, br)` if `tl < br` else `0`. -/
def biasedAxis (rv : ℤ) (fgmin fgmax dim t : ℕ) : ℤ :=
  if biasedLo fgmin t < biasedHi fgmax dim t then
    randint rv (biasedLo fgmin t) (biasedHi fgmax dim t)
  else 0

/-- The uniform origin choice along one axis (lines 189-190):
`randint(0, dim - t)` if `dim - t > 0` else `0`. -/
def uniformAxis (rv : ℤ) (dim t : ℕ) : ℤ :=
  if (0 : ℤ) < (dim : ℤ) - t then randint rv 0 ((dim : ℤ) - t) else 0

/-- The crop-origin selection of `random_crop_padding` (lines 177-190),
with `t_h`/`t_w` already clamped by the caller.  Returns `none` when
Python would raise `IndexError` reading `imgs[1]`. -/
def cropOrigin (rdraw : ℚ) (rA rB : ℤ) (imgs : List Raster) (h w tH tW : ℕ) :
    Option (ℤ × ℤ) :=
  if rdraw > 3/8 then
    match imgs[1]? with
    | none => none
    | some m1 =>
      if hasFg m1 then
        some (biasedAxis rA (fgMinRow m1) (fgMaxRow m1) h tH,
              biasedAxis rB (fgMinCol m1) (fgMaxCol m1) w tW)
      else
        some (uniformAxis rA h tH, uniformAxis rB w tW)
  else some (uniformAxis rA h tH, uniformAxis rB w tW)

/-- Crop `[i:i+tH, j:j+tW]` (Python slicing clamps at the raster bounds)
followed by `cv2.copyMakeBorder(img, 0, pH - tH, 0, pW - tW, BORDER_CONSTANT, 0)`
(lines 193-214). -/
def cropPadOne (i j tH tW pH pW : ℕ) (r : Raster) : Raster :=
  let sh := min (i + tH) r.h - i
  let sw := min (j + tW) r.w - j
  { h := sh + (pH - tH), w := sw + (pW - tW),
    data := fun y x => if y < sh ∧ x < sw then r.data (i + y) (j + x) else 0 }

/-- `random_crop_padding(imgs, target_size)` (lines 167-215), `target_size`
given as `(t_w, t_h)` exactly as the source unpacks it.  `none` models an
uncaught `IndexError` (empty list, or a single-raster list reaching
`np.max(imgs[1])`). -/
def random_crop_padding (rdraw : ℚ) (rA rB : ℤ) (imgs : List Raster)
    (target : ℕ × ℕ) : Option (List Raster) :=
  match imgs.head? with
  | none => none
  | some img0 =>
    if img0.w = target.1 ∧ img0.h = target.2 then some imgs
    else
      match cropOrigin rdraw rA rB imgs img0.h img0.w
          (min target.2 img0.h) (min target.1 img0.w) with
      | none => none
      | some (i, j) =>
        some (imgs.map (cropPadOne i.toNat j.toNat
          (min target.2 img0.h) (min target.1 img0.w) target.2 target.1))

/-- Spec-side predicate for the C4 counterexample: the crop with origin
`(i, j)` and extent `tH × tW` contains every foreground pixel of `r`
("includes the bounding region of the foreground pixels"). -/
def cropIncludesFg (i j : ℤ) (tH tW : ℕ) (r : Raster) : Bool :=
  (fgPos r).all fun p =>
    decide (i ≤ (p.1 : ℤ)) && decide ((p.1 : ℤ) < i + tH) &&
    decide (j ≤ (p.2 : ℤ)) && decide ((p.2 : ℤ) < j + tW)

/-- Concrete fixture for the C4 counterexample: a 4×4 all-zero raster (the
image layer, and also the instance-map layer `imgs[1]`). -/
def zeroRaster4 : Raster := ⟨4, 4, fun _ _ => 0⟩

/-- Concrete fixture for the C4 counterexample: a 4×4 training mask whose
only foreground pixel is at `(3, 3)`. -/
def maskRaster4 : Raster := ⟨4, 4, fun y x => if y = 3 ∧ x = 3 then 1 else 0⟩

/-! ### distance-map merge (cbn_tt.py lines 443-454 and 458-473)

In `prepare_train_data`, both the raw-polygon layer and the shrunk-polygon
(kernel) layer accumulate the per-polygon Euclidean distance fields
(returned by `cv2.distanceTransform`, kept abstract here) into one buffer
initialised with `np.zeros`, executing the identical masked assignment per
polygon (line 450 and line 471):

```
gt_distmap[tempdist_img > 0] = tempdist_img[tempdist_img > 0]
```
-/

/-- The masked assignment of lines 450/471: overwrite the buffer exactly at
the pixels where the incoming field is positive. -/
def mergeDist (buf field : ℕ → ℕ → ℚ) : ℕ → ℕ → ℚ :=
  fun y x => if 0 < field y x then field y x else buf y x

/-- One distance-map layer: the per-polygon loop folding each polygon's
distance field into a zero-initialised buffer in order. -/
def buildDistLayer (fields : List (ℕ → ℕ → ℚ)) : ℕ → ℕ → ℚ :=
  fields.foldl mergeDist (fun _ _ => 0)

/-- Spec-side value at a pixel: the last nonzero value among the
per-polygon fields at that pixel, 0 if every field is zero there (the
"last-nonzero-wins" merge, as opposed to maximum or sum). -/
def lastNonzeroAt (fields : List (ℕ → ℕ → ℚ)) (y x : ℕ) : ℚ :=
  match fields.reverse.find? (fun f => decide (f y x ≠ 0)) with
  | some f => f y x
  | none => 0

/-! ### get_vocabulary (cbn_tt.py lines 280-299) and the word-label loop (lines 396-423)

```
gt_words = np.full((self.max_word_num + 1, self.max_word_len), self.char2id['PAD'], ...)
word_mask = np.zeros((self.max_word_num + 1,), ...)
for i, word in enumerate(words):
    if word == '###' or word == '???':
        continue
    word = word.lower()
    gt_word = np.full((self.max_word_len,), self.char2id['PAD'], ...)
    for j, char in enumerate(word):
        if j > self.max_word_len - 1:
            break
        if char in self.char2id:
            gt_word[j] = self.char2id[char]
        else:
            gt_word[j] = self.char2id['UNK']
    if len(word) > self.max_word_len - 1:
        gt_word[-1] = self.char2id['EOS']
    else:
        gt_word[len(word)] = self.char2id['EOS']
    gt_words[i + 1] = gt_word
    word_mask[i + 1] = 1
```

The dataset is constructed with `get_vocabulary('LOWERCASE')`:
`voc = list(string.digits + string.ascii_lowercase)` followed by the
appended `EOS`, `PAD`, `UNK` entries, and `char2id` maps each vocabulary
entry to its index.  `words` has already been clipped to `max_word_num`
(lines 396-398).  Words are Lean `List Char`; the two tables are total slot
functions, each slot of `gt_words` a `max_word_len`-long row. -/

/-- `list(string.digits + string.ascii_lowercase)`. -/
def vocLowercase : List Char := "0123456789abcdefghijklmnopqrstuvwxyz".toList

/-- `self.max_word_num = 200` (line 365). -/
def maxWordNum : ℕ := 200

/-- `self.max_word_len = 32` (line 366). -/
def maxWordLen : ℕ := 32

/-- `char2id['EOS']` (appended right after the 36 base characters). -/
def eosId : ℕ := vocLowercase.length

/-- `char2id['PAD']`. -/
def padId : ℕ := vocLowercase.length + 1

/-- `char2id['UNK']`. -/
def unkId : ℕ := vocLowercase.length + 2

/-- `self.char2id[char] if char in self.char2id else self.char2id['UNK']`
(lines 414-417; a single character never equals the multi-character keys
`'EOS'`/`'PAD'`/`'UNK'`). -/
def char2id (c : Char) : ℕ :=
  if c ∈ vocLowercase then vocLowercase.indexOf c else unkId

/-- The inner character loop (lines 411-417): write the character ids at
positions `0, 1, ...`, breaking once `j > max_word_len - 1`. -/
def writeChars : List Char → List ℕ → ℕ → List ℕ
  | [], row, _ => row
  | c :: rest, row, j =>
    if j > maxWordLen - 1 then row
    else writeChars rest (row.set j (char2id c)) (j + 1)

/-- `gt_word` for one non-ignored word (lines 407-421): a PAD-filled row,
the lowercased characters written in order, then the EOS marker at
`len(word)` (at the last position when the word is longer than
`max_word_len - 1`; `gt_word[-1]` is the last cell). -/
def gtWordRow (word : List Char) : List ℕ :=
  if (word.map Char.toLower).length > maxWordLen - 1 then
    (writeChars (word.map Char.toLower) (List.replicate maxWordLen padId) 0).set
      (maxWordLen - 1) eosId
  else
    (writeChars (word.map Char.toLower) (List.replicate maxWordLen padId) 0).set
      (word.map Char.toLower).length eosId

/-- Pointwise update of a total slot table. -/
def setSlot {α : Type} (t : ℕ → α) (k : ℕ) (v : α) : ℕ → α :=
  fun n => if n = k then v else t n

/-- The word-table loop (lines 404-423): each non-ignored word at index `i`
writes its encoded row into label-table slot `i + 1` and sets word-mask
slot `i + 1` to 1; `'###'` and `'???'` words are skipped. -/
def buildTables :
    List (List Char) → ℕ → ((ℕ → List ℕ) × (ℕ → ℕ)) → ((ℕ → List ℕ) × (ℕ → ℕ))
  | [], _, tabs => tabs
  | word :: rest, i, (gtW, mask) =>
    if word = ['#', '#', '#'] ∨ word = ['?', '?', '?'] then
      buildTables rest (i + 1) (gtW, mask)
    else
      buildTables rest (i + 1)
        (setSlot gtW (i + 1) (gtWordRow word), setSlot mask (i + 1) 1)

/-- Lines 396-423 of `prepare_train_data`: clip the word list to
`max_word_num`, initialise `gt_words` to all-PAD rows and `word_mask` to
zeros, then run the loop. -/
def prepareWordTables (words : List (List Char)) : (ℕ → List ℕ) × (ℕ → ℕ) :=
  buildTables (words.take maxWordNum) 0
    (fun _ => List.replicate maxWordLen padId, fun _ => 0)

/-- Spec-side encoding of a non-ignored word: the lowercased character ids
in order (UNK for characters outside the vocabulary), truncated to
`max_word_len - 1` characters, followed by the end-of-sequence marker — at
position `len(word)`, or at the last position when the word is longer than
`max_word_len - 1` — padded with PAD to length `max_word_len`. -/
def specRow (word : List Char) : List ℕ :=
  ((word.map Char.toLower).take (maxWordLen - 1)).map char2id ++ [eosId] ++
    List.replicate (maxWordLen - 1 - min word.length (maxWordLen - 1)) padId

/-- Concrete fixture: the triangle `[(0,0), (4,0), (0,3)]`. -/
def tri430 : Contour := [(0, 0), (4, 0), (0, 3)]

/-- Concrete fixture: a clipper returning one 3-vertex ring for every call. -/
def okClipper : Clipper := fun _ => some [[(0, 0), (1, 0), (0, 1)]]

/-- Concrete fixture: a clipper modelling `pyclipper` raising on every call. -/
def failClipper : Clipper := fun _ => none

/-- Concrete fixture: the constant-zero area functional. -/
def zeroArea : Contour → ℚ := fun _ => 0

/-- Concrete fixture: the constant-zero point distance. -/
def zeroDist : Pt → Pt → ℚ := fun _ _ => 0

/-! # Theorems -/

theorem align32_roundUp (n : ℤ) : roundUp32 n (align32 n) := by
  unfold roundUp32 align32
  refine ⟨Int.dvd_of_emod_eq_zero ?_, ?_, ?_⟩ <;> split <;> omega

/-- C6: for any input image dimensions and any `short_size`, both output
dimensions of `scale_aligned` (train mode) and of `scale_aligned_short`
(test mode) are exact multiples of 32, obtained by rounding the scaled
dimension (`int(dim * scale + 0.5)`) up to the next multiple of 32. -/
theorem resize_multiple_of_32 (h w short : ℕ) (scale : ℚ) :
    roundUp32 (truncQ ((h : ℚ) * scale + 1/2)) (scale_aligned h w scale).1 ∧
    roundUp32 (truncQ ((w : ℚ) * scale + 1/2)) (scale_aligned h w scale).2 ∧
    roundUp32 (truncQ ((h : ℚ) * ((short : ℚ) / ((min h w : ℕ) : ℚ)) + 1/2))
      (scale_aligned_short h w short).1 ∧
    roundUp32 (truncQ ((w : ℚ) * ((short : ℚ) / ((min h w : ℕ) : ℚ)) + 1/2))
      (scale_aligned_short h w short).2 :=
  ⟨align32_roundUp _, align32_roundUp _, align32_roundUp _, align32_roundUp _⟩

theorem countPix_ne_zero {post : List ℕ} {label : ℕ} (h : label ∈ post) :
    countPix post label ≠ 0 := by
  unfold countPix
  intro hc
  rw [List.length_eq_zero, List.filter_eq_nil_iff] at hc
  exact hc label h (by simp)

theorem updateStep_apply (post pre : List ℕ) (label : ℕ) (mask : ℕ → ℕ) (n : ℕ) :
    updateStep post pre label mask n =
      if n = label ∧ clearsSlot post pre label then 0 else mask n := by
  by_cases h0 : label = 0
  · simp [updateStep, clearsSlot, h0]
  · by_cases hp : countPix post label = 0
    · by_cases hn : n = label <;> simp [updateStep, clearsSlot, h0, hp, hn]
    · by_cases hq : countPix pre label = 0
      · simp [updateStep, clearsSlot, h0, hp, hq]
      · by_cases hr : (countPix post label : ℚ) / (countPix pre label : ℚ) > 9/10
        · simp [updateStep, clearsSlot, h0, hp, hq, hr]
        · by_cases hn : n = label <;>
            simp [updateStep, clearsSlot, h0, hp, hq, hr, hn]

theorem update_word_mask_foldl (post pre : List ℕ) (labels : List ℕ)
    (mask : ℕ → ℕ) (n : ℕ) :
    labels.foldl (fun m label => updateStep post pre label m) mask n =
      if n ∈ labels ∧ clearsSlot post pre n then 0 else mask n := by
  induction labels generalizing mask with
  | nil => simp
  | cons l rest ih =>
    rw [List.foldl_cons, ih, updateStep_apply]
    by_cases hn : n = l <;> by_cases hc : clearsSlot post pre n <;>
      by_cases hm : n ∈ rest <;> simp_all

/-- Pointwise description of `update_word_mask`: slot `n` is cleared to 0
exactly when `n` occurs in the post-crop instance map and the loop body's
clearing condition holds for it; every other slot is returned unchanged. -/
theorem update_word_mask_apply (post pre : List ℕ) (mask : ℕ → ℕ) (n : ℕ) :
    update_word_mask post pre mask n =
      if n ∈ post ∧ clearsSlot post pre n then 0 else mask n := by
  unfold update_word_mask
  rw [update_word_mask_foldl]
  simp [List.mem_dedup]

/-- C10: `update_word_mask` is pointwise monotonically decreasing (slots are
only ever cleared to 0, never raised), and a slot whose instance id does not
occur in the post-crop instance map is returned unchanged. -/
theorem update_word_mask_monotone (post pre : List ℕ) (mask : ℕ → ℕ) (n : ℕ) :
    update_word_mask post pre mask n ≤ mask n ∧
      (n ∉ post → update_word_mask post pre mask n = mask n) := by
  rw [update_word_mask_apply]
  constructor
  · split <;> simp
  · intro hn
    simp [hn]

/-- Witness for C10 at a concrete input: post-crop map `[1]`, pre-crop map
`[1, 1]`, constant mask 5: slot 1 (present, 50% survival) is decreased,
slot 2 (absent from the post-crop map) is untouched. -/
theorem update_word_mask_monotone_witness :
    (update_word_mask [1] [1, 1] (fun _ => 5) 1 ≤ 5) ∧
      (update_word_mask [1] [1, 1] (fun _ => 5) 2 = 5) :=
  ⟨(update_word_mask_monotone [1] [1, 1] (fun _ => 5) 1).1,
   (update_word_mask_monotone [1] [1, 1] (fun _ => 5) 2).2 (by decide)⟩

/-- C1 counterexample: the claim fails on the code in two ways.  Concrete
input: pre-crop map `10 × [1] ++ [2]`, post-crop map `9 × [1] ++ [0, 0]`,
all mask slots 1.  Instance 1 survives with exactly 90% of its pixels
(9/10): the claim says a slot retaining at least 90% keeps its value, but
the code clears it (the keep-condition is strictly `> 0.9`).  Instance 2 is
present before the crop and absent after it: the claim says its slot must
be set to 0, but the code iterates over `np.unique(instance)` — the
post-crop labels only — so the slot keeps its value 1. -/
theorem update_word_mask_claim_counterexample :
    update_word_mask (List.replicate 9 1 ++ [0, 0]) (List.replicate 10 1 ++ [2])
        (fun _ => 1) 1 = 0 ∧
      update_word_mask (List.replicate 9 1 ++ [0, 0]) (List.replicate 10 1 ++ [2])
        (fun _ => 1) 2 = 1 := by
  constructor
  · rw [update_word_mask_apply]
    have hmem : (1 : ℕ) ∈ List.replicate 9 1 ++ [0, 0] := by decide
    have hcl : clearsSlot (List.replicate 9 1 ++ [0, 0]) (List.replicate 10 1 ++ [2]) 1 := by
      refine ⟨by decide, Or.inr ⟨by decide, ?_⟩⟩
      have h9 : countPix (List.replicate 9 1 ++ [0, 0]) 1 = 9 := by decide
      have h10 : countPix (List.replicate 10 1 ++ [2]) 1 = 10 := by decide
      rw [h9, h10]
      norm_num
    rw [if_pos ⟨hmem, hcl⟩]
  · rw [update_word_mask_apply]
    have habs : (2 : ℕ) ∉ List.replicate 9 1 ++ [0, 0] := by decide
    rw [if_neg (fun hc => habs hc.1)]

/-- C1 (amended): for an instance id present in the post-crop instance map
with a nonzero pre-crop pixel count, the word-mask slot keeps its value
exactly when the surviving fraction is strictly greater than 90%, and is
cleared to 0 when the fraction is at most 90%; ids absent from the
post-crop map keep their slot value untouched (they are never visited). -/
theorem update_word_mask_threshold (post pre : List ℕ) (mask : ℕ → ℕ) (label : ℕ)
    (h0 : label ≠ 0) (hpre : countPix pre label ≠ 0) :
    (label ∈ post →
      ((countPix post label : ℚ) / (countPix pre label : ℚ) > 9/10 →
        update_word_mask post pre mask label = mask label) ∧
      (¬ ((countPix post label : ℚ) / (countPix pre label : ℚ) > 9/10) →
        update_word_mask post pre mask label = 0)) ∧
    (label ∉ post → update_word_mask post pre mask label = mask label) := by
  refine ⟨fun hmem => ⟨fun hgt => ?_, fun hle => ?_⟩, fun habs => ?_⟩ <;>
    rw [update_word_mask_apply]
  · have hno : ¬ clearsSlot post pre label := by
      rintro ⟨-, hc | ⟨-, hc⟩⟩
      · exact countPix_ne_zero hmem hc
      · exact hc hgt
    simp [hno]
  · have hyes : clearsSlot post pre label := ⟨h0, Or.inr ⟨hpre, hle⟩⟩
    simp [hmem, hyes]
  · simp [habs]

/-- Witness for C1 (amended), the spec's 100-pixel scenario: an instance with
100 pre-crop pixels keeping 85 pixels (85% < 90%) has its slot cleared, and
one keeping 95 pixels (95% > 90%) keeps its slot value 1. -/
theorem update_word_mask_threshold_witness :
    update_word_mask (List.replicate 85 1) (List.replicate 100 1) (fun _ => 1) 1 = 0 ∧
      update_word_mask (List.replicate 95 1) (List.replicate 100 1) (fun _ => 1) 1 = 1 := by
  have h85 : countPix (List.replicate 85 1) 1 = 85 := by decide
  have h95 : countPix (List.replicate 95 1) 1 = 95 := by decide
  have h100 : countPix (List.replicate 100 1) 1 = 100 := by decide
  constructor
  · exact ((update_word_mask_threshold (List.replicate 85 1) (List.replicate 100 1)
      (fun _ => 1) 1 (by decide) (by decide)).1 (by decide)).2
      (by rw [h85, h100]; norm_num)
  · exact ((update_word_mask_threshold (List.replicate 95 1) (List.replicate 100 1)
      (fun _ => 1) 1 (by decide) (by decide)).1 (by decide)).1
      (by rw [h95, h100]; norm_num)

theorem perimeterSpec_nonneg (dist : Pt → Pt → ℚ) (bbox : Contour)
    (hdist : ∀ a b, 0 ≤ dist a b) : 0 ≤ perimeterSpec dist bbox := by
  unfold perimeterSpec
  apply List.sum_nonneg
  intro x hx
  obtain ⟨e, -, rfl⟩ := List.mem_map.mp hx
  exact hdist _ _

theorem perimeter_eq_spec (dist : Pt → Pt → ℚ) (bbox : Contour) :
    perimeter dist bbox = perimeterSpec dist bbox := by
  unfold perimeter perimeterSpec
  have hlist : (List.range bbox.length).map
      (fun i => dist (bbox.getD i (0, 0)) (bbox.getD ((i + 1) % bbox.length) (0, 0))) =
      (bbox.zip (bbox.rotate 1)).map (fun e => dist e.1 e.2) := by
    apply List.ext_getElem
    · simp
    · intro i h1 h2
      have hi : i < bbox.length := by simpa using h1
      have hr : (i + 1) % bbox.length < bbox.length := Nat.mod_lt _ (by omega)
      simp only [List.getElem_map, List.getElem_range, List.getElem_zip, List.getElem_rotate]
      rw [List.getD_eq_getElem _ _ hi, List.getD_eq_getElem _ _ hr]
  rw [← hlist, List.sum_eq_foldl, List.foldl_map]

/-- C2: for every polygon, the offset distance `shrink` hands to the
clipper is `min(round(area * (1 - rate²) / (peri + 0.001)), 20)` — with
`area` the (nonnegative) polygon area, `peri` the closed-polygon perimeter
(wrap-around edge included), and the source default `max_shr = 20` — and
the clipper is invoked with this value negated, round joins and
closed-polygon mode; `perimeter` agrees with the spec-side sum of Euclidean
edge lengths. -/
theorem shrink_offset_spec (area : Contour → ℚ) (dist : Pt → Pt → ℚ) (rate : ℚ)
    (bbox : Contour) (harea : 0 ≤ area bbox) (hdist : ∀ a b, 0 ≤ dist a b)
    (hrate : rate ^ 2 ≤ 1) :
    shrinkCall area dist (rate * rate) 20 bbox =
      ⟨bbox, JoinType.jtRound, EndType.etClosedPolygon,
        -(min (round (area bbox * (1 - rate ^ 2) / (perimeterSpec dist bbox + 1/1000))) 20)⟩ ∧
      perimeter dist bbox = perimeterSpec dist bbox := by
  have hperi := perimeter_eq_spec dist bbox
  have hpnn : 0 ≤ perimeterSpec dist bbox := perimeterSpec_nonneg dist bbox hdist
  have hx : 0 ≤ area bbox * (1 - rate ^ 2) / (perimeterSpec dist bbox + 1/1000) := by
    apply div_nonneg
    · exact mul_nonneg harea (by linarith)
    · linarith
  refine ⟨?_, hperi⟩
  unfold shrinkCall shrinkOffset truncQ
  rw [hperi, ← pow_two rate]
  rw [if_pos (by linarith :
    (0:ℚ) ≤ area bbox * (1 - rate ^ 2) / (perimeterSpec dist bbox + 1/1000) + 1/2)]
  rw [← round_eq]

/-- Witness for C2 at a concrete input: constant area 10, constant edge
length 1, rate 1/2, on the triangle fixture. -/
theorem shrink_offset_spec_witness :
    shrinkCall (fun _ => 10) (fun _ _ => 1) ((1/2 : ℚ) * (1/2)) 20 tri430 =
      ⟨tri430, JoinType.jtRound, EndType.etClosedPolygon,
        -(min (round ((10 : ℚ) * (1 - (1/2 : ℚ) ^ 2) /
          (perimeterSpec (fun _ _ => 1) tri430 + 1/1000))) 20)⟩ ∧
      perimeter (fun _ _ => (1 : ℚ)) tri430 = perimeterSpec (fun _ _ => 1) tri430 :=
  shrink_offset_spec (fun _ => 10) (fun _ _ => 1) (1/2) tri430 (by norm_num)
    (fun _ _ => by norm_num) (by norm_num)

/-- C3: evaluation of the code at the claim's failing input.  The claim
says no exception escapes `shrink`, but when the clipper raises on the very
first polygon (e.g. `pyclipper.AddPath` rejects a 2-point closed path), the
`except` handler's `print(type(shrinked_bbox), shrinked_bbox)` references
the still-unbound local `shrinked_bbox` and the resulting
`UnboundLocalError` escapes `shrink`. -/
theorem shrink_first_failure_raises :
    shrink (fun _ => none) (fun _ => 0) (fun _ _ => 0) [[(0, 0), (1, 1)]] (7/10) 20 =
      Except.error () := rfl

theorem except_map_ok {α β ε : Type} {f : α → β} {x : Except ε α} {out : β}
    (h : x.map f = Except.ok out) : ∃ y, x = Except.ok y ∧ out = f y := by
  cases x with
  | error e => simp [Except.map] at h
  | ok y =>
    refine ⟨y, rfl, ?_⟩
    simpa [Except.map] using h.symm

theorem shrinkLoop_ok (clipper : Clipper) (area : Contour → ℚ) (dist : Pt → Pt → ℚ)
    (rateSq : ℚ) (maxShr : ℤ) (bboxes : List Contour) :
    ∀ (bound : Bool) (out : List Contour),
      shrinkLoop clipper area dist rateSq maxShr bboxes bound = Except.ok out →
      out.length = bboxes.length ∧
        ∀ i, i < bboxes.length →
          (∃ rings, clipper (shrinkCall area dist rateSq maxShr (bboxes.getD i [])) =
              some rings ∧ out.getD i [] = rings.headI) ∨
            out.getD i [] = bboxes.getD i [] := by
  induction bboxes with
  | nil =>
    intro bound out h
    simp only [shrinkLoop] at h
    cases h
    exact ⟨rfl, fun i hi => absurd hi (by simp)⟩
  | cons b rest ih =>
    intro bound out h
    simp only [shrinkLoop] at h
    cases hc : clipper (shrinkCall area dist rateSq maxShr b) with
    | none =>
      simp only [hc] at h
      cases bound with
      | false => cases h
      | true =>
        simp only [if_true] at h
        obtain ⟨out', hrec, rfl⟩ := except_map_ok h
        obtain ⟨hlen, helem⟩ := ih true out' hrec
        refine ⟨by simp [hlen], fun i hi => ?_⟩
        cases i with
        | zero => exact Or.inr rfl
        | succ k => simpa using helem k (by simpa using hi)
    | some rings =>
      simp only [hc] at h
      by_cases h0 : rings.length = 0
      · simp only [h0, if_true] at h
        obtain ⟨out', hrec, rfl⟩ := except_map_ok h
        obtain ⟨hlen, helem⟩ := ih true out' hrec
        refine ⟨by simp [hlen], fun i hi => ?_⟩
        cases i with
        | zero => exact Or.inr rfl
        | succ k => simpa using helem k (by simpa using hi)
      · by_cases h2 : rings.headI.length ≤ 2
        · simp only [h0, h2, if_false, if_true] at h
          obtain ⟨out', hrec, rfl⟩ := except_map_ok h
          obtain ⟨hlen, helem⟩ := ih true out' hrec
          refine ⟨by simp [hlen], fun i hi => ?_⟩
          cases i with
          | zero => exact Or.inr rfl
          | succ k => simpa using helem k (by simpa using hi)
        · simp only [h0, h2, if_false] at h
          obtain ⟨out', hrec, rfl⟩ := except_map_ok h
          obtain ⟨hlen, helem⟩ := ih true out' hrec
          refine ⟨by simp [hlen], fun i hi => ?_⟩
          cases i with
          | zero => exact Or.inl ⟨rings, hc, rfl⟩
          | succ k => simpa using helem k (by simpa using hi)

/-- C9 (amended): whenever `shrink` returns normally, the returned list has
exactly the length of the input list and its i-th element is either the
first ring of the clipper's inward offset of the i-th input polygon or the
i-th input polygon itself unchanged.  (The unconditional claim fails: a
clipper failure on the first polygon makes the exception handler itself
raise, so no list is returned at all — see the counterexample.) -/
theorem shrink_length_order (clipper : Clipper) (area : Contour → ℚ)
    (dist : Pt → Pt → ℚ) (bboxes : List Contour) (rate : ℚ) (maxShr : ℤ)
    (out : List Contour)
    (h : shrink clipper area dist bboxes rate maxShr = Except.ok out) :
    out.length = bboxes.length ∧
      ∀ i, i < bboxes.length →
        (∃ rings, clipper (shrinkCall area dist (rate * rate) maxShr (bboxes.getD i [])) =
            some rings ∧ out.getD i [] = rings.headI) ∨
          out.getD i [] = bboxes.getD i [] :=
  shrinkLoop_ok clipper area dist (rate * rate) maxShr bboxes false out h

/-- C9 counterexample: as stated, the claim quantifies over every input
list and asserts a same-length list is returned; with a clipper that raises
on the (first) polygon, `shrink` raises instead of returning a list. -/
theorem shrink_length_counterexample :
    shrink failClipper zeroArea zeroDist [tri430] (7/10) 20 = Except.error () := rfl

/-- Witness for C9 (amended) at a concrete input: a clipper that always
returns one 3-vertex ring, applied to the one-triangle list. -/
theorem shrink_length_order_witness :
    ([[(0, 0), (1, 0), (0, 1)]] : List Contour).length = [tri430].length ∧
      ∀ i, i < [tri430].length →
        (∃ rings, okClipper (shrinkCall zeroArea zeroDist ((7:ℚ)/10 * (7/10)) 20
            ([tri430].getD i [])) = some rings ∧
            ([[(0, 0), (1, 0), (0, 1)]] : List Contour).getD i [] = rings.headI) ∨
          ([[(0, 0), (1, 0), (0, 1)]] : List Contour).getD i [] = [tri430].getD i [] :=
  shrink_length_order okClipper zeroArea zeroDist [tri430] (7/10) 20
    [[(0, 0), (1, 0), (0, 1)]] rfl

theorem uniformAxis_bounds (rv : ℤ) (dim t : ℕ) (ht : t ≤ dim) :
    0 ≤ uniformAxis rv dim t ∧ uniformAxis rv dim t + t ≤ dim := by
  unfold uniformAxis randint
  split <;> omega

theorem biasedAxis_bounds (rv : ℤ) (a b dim t : ℕ) (ht : t ≤ dim) :
    0 ≤ biasedAxis rv a b dim t ∧ biasedAxis rv a b dim t + t ≤ dim := by
  unfold biasedAxis biasedLo biasedHi randint
  split <;> omega

theorem cropOrigin_some (rdraw : ℚ) (rA rB : ℤ) (imgs : List Raster) (h w tH tW : ℕ)
    (hlen : 1 < imgs.length) (hH : tH ≤ h) (hW : tW ≤ w) :
    ∃ i j, cropOrigin rdraw rA rB imgs h w tH tW = some (i, j) ∧
      0 ≤ i ∧ i + tH ≤ h ∧ 0 ≤ j ∧ j + tW ≤ w := by
  unfold cropOrigin
  by_cases hr : rdraw > 3/8
  · rw [if_pos hr]
    have hm : imgs[1]? = some (imgs[1]) := List.getElem?_eq_getElem hlen
    simp only [hm]
    by_cases hfg : hasFg (imgs[1]) = true
    · rw [if_pos hfg]
      exact ⟨_, _, rfl, (biasedAxis_bounds rA _ _ h tH hH).1,
        (biasedAxis_bounds rA _ _ h tH hH).2, (biasedAxis_bounds rB _ _ w tW hW).1,
        (biasedAxis_bounds rB _ _ w tW hW).2⟩
    · rw [if_neg hfg]
      exact ⟨_, _, rfl, (uniformAxis_bounds rA h tH hH).1,
        (uniformAxis_bounds rA h tH hH).2, (uniformAxis_bounds rB w tW hW).1,
        (uniformAxis_bounds rB w tW hW).2⟩
  · rw [if_neg hr]
    exact ⟨_, _, rfl, (uniformAxis_bounds rA h tH hH).1,
      (uniformAxis_bounds rA h tH hH).2, (uniformAxis_bounds rB w tW hW).1,
      (uniformAxis_bounds rB w tW hW).2⟩

/-- C7 (amended): for every list of at least two rasters sharing spatial
dimensions `h0 × w0` and every `target_size = (t_w, t_h)`,
`random_crop_padding` returns rasters whose spatial dimensions are exactly
the target — whether the source is smaller or larger than the target — the
crop extent being clamped to the source dimensions and the shortfall filled
with a zero border on the bottom/right edges.  (The claim's "every nonempty
list" fails: a single-raster list can raise on `imgs[1]` — see the
counterexample.) -/
theorem crop_padding_output_size (rdraw : ℚ) (rA rB : ℤ) (imgs : List Raster)
    (h0 w0 tW0 tH0 : ℕ) (hlen : 1 < imgs.length)
    (hdim : ∀ r ∈ imgs, r.h = h0 ∧ r.w = w0) :
    ∃ out, random_crop_padding rdraw rA rB imgs (tW0, tH0) = some out ∧
      out.length = imgs.length ∧
      ∀ r ∈ out, r.h = tH0 ∧ r.w = tW0 ∧
        ∀ y x, y < tH0 → x < tW0 → (min tH0 h0 ≤ y ∨ min tW0 w0 ≤ x) →
          r.data y x = 0 := by
  cases imgs with
  | nil => simp at hlen
  | cons img0 rest =>
    obtain ⟨hh0, hw0⟩ := hdim img0 (List.mem_cons_self _ _)
    unfold random_crop_padding
    simp only [List.head?_cons]
    by_cases heq : img0.w = tW0 ∧ img0.h = tH0
    · rw [if_pos heq]
      refine ⟨_, rfl, rfl, fun r hr => ?_⟩
      obtain ⟨hrh, hrw⟩ := hdim r hr
      refine ⟨by omega, by omega, fun y x hy hx hor => ?_⟩
      rcases hor with hor | hor <;> omega
    · rw [if_neg heq]
      obtain ⟨i, j, hco, hi0, hiH, hj0, hjW⟩ :=
        cropOrigin_some rdraw rA rB (img0 :: rest) img0.h img0.w
          (min tH0 img0.h) (min tW0 img0.w) hlen (min_le_right _ _) (min_le_right _ _)
      simp only [hco]
      refine ⟨_, rfl, by simp, fun r hr => ?_⟩
      obtain ⟨s, hs, rfl⟩ := List.mem_map.mp hr
      obtain ⟨hsh, hsw⟩ := hdim s hs
      unfold cropPadOne
      have hshh : min (i.toNat + min tH0 img0.h) s.h - i.toNat = min tH0 img0.h := by
        omega
      have hsww : min (j.toNat + min tW0 img0.w) s.w - j.toNat = min tW0 img0.w := by
        omega
      refine ⟨by simp only [hshh]; omega, by simp only [hsww]; omega,
        fun y x hy hx hor => ?_⟩
      simp only [hshh, hsww]
      rw [if_neg]
      rintro ⟨hysh, hxsw⟩
      rcases hor with hor | hor <;> omega

/-- C7 counterexample: a nonempty (single-raster) 1×1 list cropped to a 2×2
target with draw 1/2 reaches `np.max(imgs[1])` and raises `IndexError`
instead of returning target-sized rasters. -/
theorem crop_padding_singleton_counterexample :
    random_crop_padding (1/2) 0 0 [⟨1, 1, fun _ _ => 0⟩] (2, 2) = none := by
  have h38 : (3 : ℚ) / 8 < 2⁻¹ := by norm_num
  unfold random_crop_padding cropOrigin
  simp [h38]

/-- Witness for C7 (amended) at a concrete input: two 3×5 rasters cropped to
a 4×2 target (width grows, height shrinks). -/
theorem crop_padding_output_size_witness :
    ∃ out, random_crop_padding (1/8) 1 1 [⟨3, 5, fun _ _ => 1⟩, ⟨3, 5, fun _ _ => 0⟩]
        (4, 2) = some out ∧
      out.length = ([⟨3, 5, fun _ _ => 1⟩, ⟨3, 5, fun _ _ => 0⟩] : List Raster).length ∧
      ∀ r ∈ out, r.h = 2 ∧ r.w = 4 ∧
        ∀ y x, y < 2 → x < 4 → (min 2 3 ≤ y ∨ min 4 5 ≤ x) → r.data y x = 0 :=
  crop_padding_output_size (1/8) 1 1 [⟨3, 5, fun _ _ => 1⟩, ⟨3, 5, fun _ _ => 0⟩]
    3 5 4 2 (by decide) (by
      intro r hr
      simp only [List.mem_cons, List.not_mem_nil, or_false] at hr
      rcases hr with rfl | rfl <;> exact ⟨rfl, rfl⟩)

/-- C4 counterexample: the claim ties the biased branch to the training
mask having foreground.  Concrete input: raster stack
`[image, instance map, training mask]` with an all-zero 4×4 instance map
and a 4×4 training mask whose only foreground pixel is `(3, 3)`; crop
extent 2×2, draw 1/2 > 3/8, both `randint` draws 0.  The training mask has
foreground and the draw exceeds 3/8, yet the code takes the uniform branch
(it consults `imgs[1]`, the instance map, which is all-zero) and returns
origin `(0, 0)`, whose 2×2 crop does not include the training mask's
foreground bounding region. -/
theorem crop_origin_claim_counterexample :
    cropOrigin (1/2) 0 0 [zeroRaster4, zeroRaster4, maskRaster4] 4 4 2 2 = some (0, 0) ∧
      hasFg maskRaster4 = true ∧ ((1 : ℚ)/2 > 3/8) ∧
      cropIncludesFg 0 0 2 2 maskRaster4 = false := by
  have h38 : ((1 : ℚ)/2) > 3/8 := by norm_num
  have hfg : hasFg zeroRaster4 = false := by decide
  refine ⟨?_, by decide, h38, by decide⟩
  unfold cropOrigin
  rw [if_pos h38]
  simp only [List.getElem?_cons_succ, List.getElem?_cons_zero]
  rw [if_neg (by simp [hfg])]
  decide

/-- C4 (amended): the branch condition of the random crop reads the second
raster of the stack — the instance map, not the training mask: exactly when
the uniform draw exceeds 3/8 and the instance-map layer has a nonzero
pixel, the crop origin is drawn per axis from the clamped
foreground-derived interval `[max(fgmin - t, 0), min(max(fgmax - t, 0),
dim - t)]` when that interval is proper and is 0 otherwise (biasing the
crop toward the text region without guaranteeing it contains the full
foreground bounding region); otherwise the origin is the uniform choice
over the valid range.  Either way the origin keeps the crop inside the
source raster. -/
theorem crop_origin_branches (rdraw : ℚ) (rA rB : ℤ) (imgs : List Raster)
    (h w tH tW : ℕ) (m1 : Raster) (hm : imgs[1]? = some m1)
    (hH : tH ≤ h) (hW : tW ≤ w) :
    (¬ (rdraw > 3/8 ∧ hasFg m1 = true) →
      cropOrigin rdraw rA rB imgs h w tH tW =
        some (uniformAxis rA h tH, uniformAxis rB w tW) ∧
      0 ≤ uniformAxis rA h tH ∧ uniformAxis rA h tH + tH ≤ h ∧
      0 ≤ uniformAxis rB w tW ∧ uniformAxis rB w tW + tW ≤ w) ∧
    (rdraw > 3/8 → hasFg m1 = true →
      ∃ i j, cropOrigin rdraw rA rB imgs h w tH tW = some (i, j) ∧
        0 ≤ i ∧ i + tH ≤ h ∧ 0 ≤ j ∧ j + tW ≤ w ∧
        (biasedLo (fgMinRow m1) tH < biasedHi (fgMaxRow m1) h tH →
          biasedLo (fgMinRow m1) tH ≤ i ∧ i ≤ biasedHi (fgMaxRow m1) h tH) ∧
        (¬ biasedLo (fgMinRow m1) tH < biasedHi (fgMaxRow m1) h tH → i = 0) ∧
        (biasedLo (fgMinCol m1) tW < biasedHi (fgMaxCol m1) w tW →
          biasedLo (fgMinCol m1) tW ≤ j ∧ j ≤ biasedHi (fgMaxCol m1) w tW) ∧
        (¬ biasedLo (fgMinCol m1) tW < biasedHi (fgMaxCol m1) w tW → j = 0)) := by
  constructor
  · intro hneg
    unfold cropOrigin
    by_cases hr : rdraw > 3/8
    · rw [if_pos hr]
      simp only [hm]
      have hfg : ¬ hasFg m1 = true := fun hf => hneg ⟨hr, hf⟩
      rw [if_neg hfg]
      exact ⟨rfl, (uniformAxis_bounds rA h tH hH).1, (uniformAxis_bounds rA h tH hH).2,
        (uniformAxis_bounds rB w tW hW).1, (uniformAxis_bounds rB w tW hW).2⟩
    · rw [if_neg hr]
      exact ⟨rfl, (uniformAxis_bounds rA h tH hH).1, (uniformAxis_bounds rA h tH hH).2,
        (uniformAxis_bounds rB w tW hW).1, (uniformAxis_bounds rB w tW hW).2⟩
  · intro hr hfg
    refine ⟨biasedAxis rA (fgMinRow m1) (fgMaxRow m1) h tH,
      biasedAxis rB (fgMinCol m1) (fgMaxCol m1) w tW, ?_,
      (biasedAxis_bounds rA _ _ h tH hH).1, (biasedAxis_bounds rA _ _ h tH hH).2,
      (biasedAxis_bounds rB _ _ w tW hW).1, (biasedAxis_bounds rB _ _ w tW hW).2,
      ?_, ?_, ?_, ?_⟩
    · unfold cropOrigin
      rw [if_pos hr]
      simp only [hm]
      rw [if_pos hfg]
    · intro hlt
      unfold biasedAxis randint
      rw [if_pos hlt]
      omega
    · intro hlt
      unfold biasedAxis
      rw [if_neg hlt]
    · intro hlt
      unfold biasedAxis randint
      rw [if_pos hlt]
      omega
    · intro hlt
      unfold biasedAxis
      rw [if_neg hlt]

/-- Witness for C4 (amended) at a concrete input: stack
`[zeroRaster4, maskRaster4]` (so `imgs[1]` is the raster with foreground at
`(3, 3)`), draw 1/2, crop extent 2×2 inside a 4×4 source. -/
theorem crop_origin_branches_witness :
    (¬ ((1 : ℚ)/2 > 3/8 ∧ hasFg maskRaster4 = true) →
      cropOrigin (1/2) 0 0 [zeroRaster4, maskRaster4] 4 4 2 2 =
        some (uniformAxis 0 4 2, uniformAxis 0 4 2) ∧
      0 ≤ uniformAxis 0 4 2 ∧ uniformAxis 0 4 2 + 2 ≤ 4 ∧
      0 ≤ uniformAxis 0 4 2 ∧ uniformAxis 0 4 2 + 2 ≤ 4) ∧
    ((1 : ℚ)/2 > 3/8 → hasFg maskRaster4 = true →
      ∃ i j, cropOrigin (1/2) 0 0 [zeroRaster4, maskRaster4] 4 4 2 2 = some (i, j) ∧
        0 ≤ i ∧ i + 2 ≤ 4 ∧ 0 ≤ j ∧ j + 2 ≤ 4 ∧
        (biasedLo (fgMinRow maskRaster4) 2 < biasedHi (fgMaxRow maskRaster4) 4 2 →
          biasedLo (fgMinRow maskRaster4) 2 ≤ i ∧
            i ≤ biasedHi (fgMaxRow maskRaster4) 4 2) ∧
        (¬ biasedLo (fgMinRow maskRaster4) 2 < biasedHi (fgMaxRow maskRaster4) 4 2 →
          i = 0) ∧
        (biasedLo (fgMinCol maskRaster4) 2 < biasedHi (fgMaxCol maskRaster4) 4 2 →
          biasedLo (fgMinCol maskRaster4) 2 ≤ j ∧
            j ≤ biasedHi (fgMaxCol maskRaster4) 4 2) ∧
        (¬ biasedLo (fgMinCol maskRaster4) 2 < biasedHi (fgMaxCol maskRaster4) 4 2 →
          j = 0)) :=
  crop_origin_branches (1/2) 0 0 [zeroRaster4, maskRaster4] 4 4 2 2 maskRaster4 rfl
    (by decide) (by decide)

theorem buildDistLayer_foldl (y x : ℕ) :
    ∀ (fields : List (ℕ → ℕ → ℚ)) (buf : ℕ → ℕ → ℚ),
      (∀ f ∈ fields, ∀ y x, 0 ≤ f y x) →
      fields.foldl mergeDist buf y x =
        match fields.reverse.find? (fun f => decide (f y x ≠ 0)) with
        | some f => f y x
        | none => buf y x := by
  intro fields
  induction fields with
  | nil => intro buf hnn; simp
  | cons f rest ih =>
    intro buf hnn
    rw [List.foldl_cons, ih _ (fun g hg y x => hnn g (List.mem_cons_of_mem f hg) y x)]
    rw [List.reverse_cons, List.find?_append]
    cases hfind : rest.reverse.find? (fun f => decide (f y x ≠ 0)) with
    | some g => simp [Option.or]
    | none =>
      simp only [Option.or_none, Option.none_or]
      cases hfz : (fun f => decide (f y x ≠ 0)) f with
      | true =>
        simp only [List.find?_cons, hfz]
        have : f y x ≠ 0 := of_decide_eq_true hfz
        have h0 : 0 < f y x := lt_of_le_of_ne (hnn f (List.mem_cons_self f rest) y x)
          (Ne.symm this)
        simp [mergeDist, h0]
      | false =>
        simp only [List.find?_cons, hfz]
        have : ¬ f y x ≠ 0 := of_decide_eq_false hfz
        have h0 : f y x = 0 := not_not.mp this
        simp [List.find?_nil, mergeDist, h0]

/-- C5: the distance-map merge is last-nonzero-wins.  For every list of
(nonnegative) per-polygon distance fields and every pixel, the built layer
holds the last field value that is nonzero at that pixel (0 when none is),
i.e. a later polygon's field overwrites the buffer exactly where it is
itself nonzero — not the maximum and not the sum.  Both the raw-polygon
layer (line 450) and the shrunk-polygon kernel layer (line 471) fold the
identical `mergeDist` assignment. -/
theorem distmap_merge_last_nonzero (fields : List (ℕ → ℕ → ℚ))
    (hnn : ∀ f ∈ fields, ∀ y x, 0 ≤ f y x) (y x : ℕ) :
    buildDistLayer fields y x = lastNonzeroAt fields y x := by
  unfold buildDistLayer lastNonzeroAt
  exact buildDistLayer_foldl y x fields _ hnn

/-- Witness for C5 at a concrete input: two constant fields 2 and then 3 —
the layer takes the later value 3 (not 5 = sum; the "not max" side needs
the later value smaller, shown with fields 3 then 2 giving 2). -/
theorem distmap_merge_last_nonzero_witness :
    buildDistLayer [fun _ _ => 3, fun _ _ => 2] 0 0 =
        lastNonzeroAt [fun _ _ => 3, fun _ _ => 2] 0 0 ∧
      buildDistLayer [fun _ _ => 3, fun _ _ => 2] 0 0 = 2 :=
  ⟨distmap_merge_last_nonzero [fun _ _ => 3, fun _ _ => 2]
      (by
        intro f hf y x
        simp only [List.mem_cons, List.not_mem_nil, or_false] at hf
        rcases hf with rfl | rfl <;> norm_num) 0 0,
    by norm_num [buildDistLayer, mergeDist]⟩

theorem writeChars_eq (word : List Char) :
    ∀ (row : List ℕ) (j : ℕ), row.length = maxWordLen →
      writeChars word row j =
        row.take j ++ (word.take (maxWordLen - j)).map char2id ++
          row.drop (j + min word.length (maxWordLen - j)) := by
  induction word with
  | nil =>
    intro row j hlen
    simp [writeChars]
  | cons c rest ih =>
    intro row j hlen
    by_cases hj : j > maxWordLen - 1
    · have hpos : (0 : ℕ) < maxWordLen := by norm_num [maxWordLen]
      unfold writeChars
      rw [if_pos hj]
      have hmj : maxWordLen - j = 0 := by omega
      simp only [hmj, List.take_zero, List.map_nil, Nat.min_zero, Nat.add_zero]
      rw [List.take_of_length_le (by omega), List.drop_eq_nil_of_le (by omega)]
      simp
    · have hpos : (0 : ℕ) < maxWordLen := by norm_num [maxWordLen]
      have hjlt : j < maxWordLen := by omega
      unfold writeChars
      rw [if_neg hj]
      rw [ih (row.set j (char2id c)) (j + 1) (by simp [hlen])]
      have hmin : min (c :: rest).length (maxWordLen - j) =
          min rest.length (maxWordLen - (j + 1)) + 1 := by
        simp only [List.length_cons]
        omega
      have hsub : maxWordLen - j = (maxWordLen - (j + 1)) + 1 := by omega
      have h1 : (row.set j (char2id c)).take (j + 1) = row.take j ++ [char2id c] := by
        rw [List.set_take, List.take_succ,
          List.getElem?_eq_getElem (by omega : j < row.length)]
        rw [Option.toList_some]
        rw [List.set_append_right _ _ (by rw [List.length_take]; omega)]
        have e0 : j - (row.take j).length = 0 := by rw [List.length_take]; omega
        rw [e0]
        rfl
      have h2 : (row.set j (char2id c)).drop
            ((j + 1) + min rest.length (maxWordLen - (j + 1))) =
          row.drop ((j + 1) + min rest.length (maxWordLen - (j + 1))) := by
        rw [List.drop_set, if_pos (by omega)]
      rw [h1, h2, hmin, hsub, List.take_succ_cons, List.map_cons]
      have hidx : j + (min rest.length (maxWordLen - (j + 1)) + 1) =
          (j + 1) + min rest.length (maxWordLen - (j + 1)) := by omega
      rw [hidx]
      simp

theorem dropReplicate {α : Type} (a : α) (n m : ℕ) :
    (List.replicate n a).drop m = List.replicate (n - m) a := by
  induction m generalizing n with
  | zero => simp
  | succ k ih =>
    cases n with
    | zero => simp
    | succ n' =>
      rw [List.replicate_succ, List.drop_succ_cons, ih]
      simp

theorem gtWordRow_eq_specRow (word : List Char) : gtWordRow word = specRow word := by
  have hw := writeChars_eq (word.map Char.toLower) (List.replicate maxWordLen padId) 0
    (by simp)
  unfold gtWordRow specRow
  rw [hw]
  simp only [List.take_zero, List.nil_append, Nat.zero_add, List.length_map,
    Nat.sub_zero, List.length_replicate, dropReplicate, maxWordLen]
  by_cases hlong : word.length > 32 - 1
  · rw [if_pos hlong]
    have hminlen : min word.length 32 = 32 := by omega
    rw [hminlen]
    simp only [Nat.sub_self, List.replicate_zero, List.append_nil]
    have hAlen : (((word.map Char.toLower).take 32).map char2id).length = 32 := by
      simp only [List.length_map, List.length_take]
      omega
    rw [List.set_eq_take_append_cons_drop, if_pos (by rw [hAlen]; omega)]
    rw [List.drop_eq_nil_of_le (by rw [hAlen])]
    have hm : 32 - 1 - min word.length (32 - 1) = 0 := by omega
    rw [hm]
    simp only [List.replicate_zero, List.append_nil]
    rw [← List.map_take, List.take_take]
    norm_num
  · rw [if_neg hlong]
    have hminlen : min word.length 32 = word.length := by omega
    rw [hminlen]
    set A := ((word.map Char.toLower).take 32).map char2id with hAdef
    have hAlen : A.length = word.length := by
      rw [hAdef]
      simp only [List.length_map, List.length_take]
      omega
    rw [List.set_eq_take_append_cons_drop,
      if_pos (by simp only [List.length_append, hAlen, List.length_replicate]; omega)]
    rw [← hAlen, List.take_left, List.drop_append, dropReplicate]
    have hA2 : A = (word.map Char.toLower).map char2id := by
      rw [hAdef, List.take_of_length_le (by simp only [List.length_map]; omega)]
    have hB : (word.map Char.toLower).take (32 - 1) = word.map Char.toLower :=
      List.take_of_length_le (by simp only [List.length_map]; omega)
    rw [hB, ← hA2]
    have hmin2 : min A.length (32 - 1) = A.length := by rw [hAlen]; omega
    rw [hmin2]
    have hrep : 32 - 1 - A.length = 32 - A.length - 1 := by omega
    rw [hrep]
    simp

theorem buildTables_low (words : List (List Char)) :
    ∀ (i : ℕ) (gtW : ℕ → List ℕ) (mask : ℕ → ℕ) (n : ℕ), n ≤ i →
      (buildTables words i (gtW, mask)).1 n = gtW n ∧
        (buildTables words i (gtW, mask)).2 n = mask n := by
  induction words with
  | nil => intro i gtW mask n hn; exact ⟨rfl, rfl⟩
  | cons w rest ih =>
    intro i gtW mask n hn
    unfold buildTables
    split
    · exact ih (i + 1) gtW mask n (by omega)
    · have h := ih (i + 1) (setSlot gtW (i + 1) (gtWordRow w)) (setSlot mask (i + 1) 1)
        n (by omega)
      refine ⟨?_, ?_⟩
      · rw [h.1]
        unfold setSlot
        rw [if_neg (by omega)]
      · rw [h.2]
        unfold setSlot
        rw [if_neg (by omega)]

theorem buildTables_slot (words : List (List Char)) :
    ∀ (i : ℕ) (gtW : ℕ → List ℕ) (mask : ℕ → ℕ) (k : ℕ), k < words.length →
      ((words.getD k [] = ['#', '#', '#'] ∨ words.getD k [] = ['?', '?', '?']) →
        (buildTables words i (gtW, mask)).1 (i + k + 1) = gtW (i + k + 1) ∧
          (buildTables words i (gtW, mask)).2 (i + k + 1) = mask (i + k + 1)) ∧
      (¬ (words.getD k [] = ['#', '#', '#'] ∨ words.getD k [] = ['?', '?', '?']) →
        (buildTables words i (gtW, mask)).1 (i + k + 1) = gtWordRow (words.getD k []) ∧
          (buildTables words i (gtW, mask)).2 (i + k + 1) = 1) := by
  induction words with
  | nil => intro i gtW mask k hk; simp at hk
  | cons w rest ih =>
    intro i gtW mask k hk
    cases k with
    | zero =>
      simp only [List.getD_cons_zero, Nat.add_zero]
      unfold buildTables
      constructor
      · intro hig
        rw [if_pos hig]
        exact buildTables_low rest (i + 1) gtW mask (i + 1) (le_refl _)
      · intro hig
        rw [if_neg hig]
        have h := buildTables_low rest (i + 1) (setSlot gtW (i + 1) (gtWordRow w))
          (setSlot mask (i + 1) 1) (i + 1) (le_refl _)
        refine ⟨?_, ?_⟩
        · rw [h.1]
          unfold setSlot
          rw [if_pos rfl]
        · rw [h.2]
          unfold setSlot
          rw [if_pos rfl]
    | succ m =>
      have hm : m < rest.length := by
        simp only [List.length_cons] at hk
        omega
      simp only [List.getD_cons_succ]
      unfold buildTables
      have htrans : i + (m + 1) + 1 = (i + 1) + m + 1 := by omega
      rw [htrans]
      split
      · exact ih (i + 1) gtW mask m hm
      · obtain ⟨h1, h2⟩ := ih (i + 1) (setSlot gtW (i + 1) (gtWordRow w))
          (setSlot mask (i + 1) 1) m hm
        refine ⟨fun hig => ?_, fun hig => h2 hig⟩
        obtain ⟨ha, hb⟩ := h1 hig
        refine ⟨?_, ?_⟩
        · rw [ha]
          unfold setSlot
          rw [if_neg (by omega)]
        · rw [hb]
          unfold setSlot
          rw [if_neg (by omega)]

/-- C8: `prepare_train_data` builds the word label table skipping ignored
(`'###'`) and unknown (`'???'`) words — their slots keep the all-PAD row and
word-mask 0; for every other word at 0-based list index `k` (after the
`max_word_num` clip), slot `k + 1` holds the lowercased character ids in
order (UNK outside the vocabulary) followed by the end-of-sequence marker
at position `len(word)` (at the last position when the word exceeds
`max_word_len - 1` characters), padded with PAD, and word-mask slot `k + 1`
is 1; slot 0 is never written (it keeps the all-PAD row and mask 0). -/
theorem word_table_encoding (words : List (List Char)) :
    ((prepareWordTables words).1 0 = List.replicate maxWordLen padId ∧
      (prepareWordTables words).2 0 = 0) ∧
    ∀ k, k < (words.take maxWordNum).length →
      (((words.take maxWordNum).getD k [] = ['#', '#', '#'] ∨
          (words.take maxWordNum).getD k [] = ['?', '?', '?']) →
        (prepareWordTables words).1 (k + 1) = List.replicate maxWordLen padId ∧
          (prepareWordTables words).2 (k + 1) = 0) ∧
      (¬ ((words.take maxWordNum).getD k [] = ['#', '#', '#'] ∨
          (words.take maxWordNum).getD k [] = ['?', '?', '?']) →
        (prepareWordTables words).1 (k + 1) =
            specRow ((words.take maxWordNum).getD k []) ∧
          (prepareWordTables words).2 (k + 1) = 1) := by
  unfold prepareWordTables
  refine ⟨buildTables_low (words.take maxWordNum) 0 _ _ 0 (le_refl 0), fun k hk => ?_⟩
  have h := buildTables_slot (words.take maxWordNum) 0
    (fun _ => List.replicate maxWordLen padId) (fun _ => 0) k hk
  rw [Nat.zero_add] at h
  refine ⟨h.1, fun hig => ?_⟩
  obtain ⟨ha, hb⟩ := h.2 hig
  exact ⟨by rw [ha, gtWordRow_eq_specRow], hb⟩

/-- Witness for C8 at the spec's concrete scenario: the word list
`["hi"]`.  Word label slot 1 holds `[h_id, i_id, EOS, PAD, PAD, ...]` —
concretely `[17, 18, 36]` followed by 29 copies of PAD = 37 — and word-mask
slot 1 is 1. -/
theorem word_table_encoding_witness :
    (prepareWordTables [['h', 'i']]).1 1 = specRow ['h', 'i'] ∧
      (prepareWordTables [['h', 'i']]).2 1 = 1 ∧
      specRow ['h', 'i'] = [17, 18, 36] ++ List.replicate 29 37 := by
  have e : ([['h', 'i']].take maxWordNum).getD 0 [] = ['h', 'i'] := by decide
  have h := ((word_table_encoding [['h', 'i']]).2 0 (by decide)).2 (by decide)
  rw [e] at h
  exact ⟨h.1, h.2, by decide⟩
